import Mathlib

/-!
Shallow embedding of the Go terminal editor core (helper.go):
line buffer, cursor, modal key handlers, undo/redo history stacks,
substring search and replace-all.

Modelling conventions:
- Go strings and rune slices are lists of characters (`Str`).
- Go `int` is `Int`.
- Go slice expressions and indexing that can panic at runtime are modelled
  in `Option`, with `none` standing for a runtime panic
  (index/slice bounds out of range). Handlers therefore return `Option Model`.
- The undo/redo stacks are Go slices pushed/popped at the end; they are
  modelled as lists pushed/popped at the end (`++ [x]` / `dropLast`).
- File I/O (load and save) is external: `initialModel` takes the loaded
  lines as input, and `saveFile` models the successful-write path, the only
  one that touches editor state.
-/

namespace GoEd

abbrev Str := List Char

def str (s : String) : Str := s.toList

/-- The four editor modes (Go `mode` iota constants). -/
inductive Mode where
  | normalMode
  | insertMode
  | searchMode
  | replaceMode
deriving DecidableEq

/-- Key events delivered by the terminal driver: a single printable rune,
or one of the named keys the handlers switch on. -/
inductive Key where
  | char (c : Char)
  | esc
  | enter
  | backspace
  | tab
  | left
  | right
  | up
  | down
  | pageup
  | pagedown
  | ctrlR
  | ctrlC
deriving DecidableEq

/-- Go `action` struct: a snapshot of buffer content and cursor. -/
structure Snap where
  content : List Str
  cursorX : Int
  cursorY : Int
deriving DecidableEq

/-- Go `model` struct. -/
structure Model where
  content : List Str
  cursorX : Int
  cursorY : Int
  offsetY : Int
  width : Int
  height : Int
  mode : Mode
  filename : Str
  statusMsg : Str
  searchTerm : Str
  replaceTerm : Str
  clipboard : Str
  modified : Bool
  tabSize : Int
  undoStack : List Snap
  redoStack : List Snap
deriving DecidableEq

/-- Go indexing `content[y]`: `none` models the out-of-range panic. -/
def getLine (content : List Str) (y : Int) : Option Str :=
  if 0 ≤ y then content[y.toNat]? else none

/-- Go assignment `content[y] = line` (always used at a valid index). -/
def setLine (content : List Str) (y : Int) (line : Str) : List Str :=
  content.set y.toNat line

/-- Go slice `l[:i]`: `none` models the slice-bounds panic. -/
def sliceTo {α : Type} (l : List α) (i : Int) : Option (List α) :=
  if 0 ≤ i ∧ i ≤ (l.length : Int) then some (l.take i.toNat) else none

/-- Go slice `l[i:]`: `none` models the slice-bounds panic. -/
def sliceFrom {α : Type} (l : List α) (i : Int) : Option (List α) :=
  if 0 ≤ i ∧ i ≤ (l.length : Int) then some (l.drop i.toNat) else none

/-- Go `deepCopyContent`. -/
def deepCopyContent (content : List Str) : List Str :=
  content.map (fun line => line.map (fun r => r))

/-- Go `strings.Index`: position of the first occurrence of `sub` in `s`,
`none` for Go's `-1`. -/
def goIndex (s sub : Str) : Option Nat :=
  if sub.isPrefixOf s then some 0
  else
    match s with
    | [] => none
    | _ :: tl => (goIndex tl sub).map (fun i => i + 1)

/-- Go `strings.LastIndex`: position of the last occurrence of `sub` in `s`,
`none` for Go's `-1`. -/
def goLastIndex (s sub : Str) : Option Nat :=
  match s with
  | [] => if sub.isPrefixOf ([] : Str) then some 0 else none
  | c :: tl =>
    match goLastIndex tl sub with
    | some i => some (i + 1)
    | none => if sub.isPrefixOf (c :: tl) then some 0 else none

/-- Go `strings.Contains`. -/
def goContains (s sub : Str) : Bool :=
  (goIndex s sub).isSome

/-- Leftmost non-overlapping replacement for a nonempty pattern, with a fuel
argument for structural recursion: a match consumes `old.length ≥ 1`
characters while fuel decreases by 1, so with the initial fuel `s.length`
(see `goReplace`) the `0, s` branch is never reached on a nonempty `s`. -/
def goReplaceAux (old new : Str) : Nat → Str → Str
  | _, [] => []
  | 0, s => s
  | fuel + 1, c :: tl =>
    if old.isPrefixOf (c :: tl) then
      new ++ goReplaceAux old new fuel ((c :: tl).drop old.length)
    else
      c :: goReplaceAux old new fuel tl

/-- The nonempty-pattern case of Go `strings.Replace` with n = -1. -/
def goReplace (s old new : Str) : Str :=
  goReplaceAux old new s.length s

/-- Go `strings.ReplaceAll`: for an empty pattern, it matches at the start
of the string and after every rune. -/
def goReplaceAll (s old new : Str) : Str :=
  if old = [] then new ++ s.flatMap (fun c => c :: new)
  else goReplace s old new

/-- Non-overlapping occurrence count for a nonempty pattern, fuelled like
`goReplaceAux`. -/
def goCountAux (old : Str) : Nat → Str → Nat
  | _, [] => 0
  | 0, _ => 0
  | fuel + 1, c :: tl =>
    if old.isPrefixOf (c :: tl) then
      1 + goCountAux old fuel ((c :: tl).drop old.length)
    else
      goCountAux old fuel tl

/-- Non-overlapping occurrence count for a nonempty pattern. -/
def goCountNe (s old : Str) : Nat :=
  goCountAux old s.length s

/-- Go `strings.Count`: for an empty pattern, 1 + number of runes. -/
def goCount (s old : Str) : Nat :=
  if old = [] then s.length + 1 else goCountNe s old

/-- Go `strings.Split` for a nonempty separator, fuelled like
`goReplaceAux`. -/
def splitAux (sep : Str) : Nat → Str → List Str
  | _, [] => [[]]
  | 0, s => [s]
  | fuel + 1, c :: tl =>
    if sep.isPrefixOf (c :: tl) then
      [] :: splitAux sep fuel ((c :: tl).drop sep.length)
    else
      match splitAux sep fuel tl with
      | [] => [[c]]
      | p :: ps => (c :: p) :: ps

/-- Go `strings.Split` for a nonempty separator. -/
def splitNe (s sep : Str) : List Str :=
  splitAux sep s.length s

/-- Go `strings.Split` (empty separator splits into single runes). -/
def goSplit (s sep : Str) : List Str :=
  if sep = [] then s.map (fun c => [c]) else splitNe s sep

/-- The loop of Go `highlightSearch`: the highlight style wrapping is
appended to every part but the last, and the parts are joined. -/
def joinHL : List Str → Str → Str
  | [], _ => []
  | [p], _ => p
  | p :: q :: ps, t => (p ++ str "\x1b[43m" ++ t ++ str "\x1b[0m") ++ joinHL (q :: ps) t

/-- Go `highlightSearch`. -/
def highlightSearch (text searchTerm : Str) : Str :=
  if searchTerm = [] then text
  else joinHL (goSplit text searchTerm) searchTerm

/-- The loop of Go `expandTabs`, tracking the current column. -/
def expandTabsLoop (tabSize : Int) : Str → Int → Str
  | [], _ => []
  | r :: rest, column =>
    if r = '\t' then
      let spaces : Int := tabSize - column % tabSize
      List.replicate spaces.toNat ' ' ++ expandTabsLoop tabSize rest (column + spaces)
    else
      r :: expandTabsLoop tabSize rest (column + 1)

/-- Go `expandTabs`. -/
def expandTabs (s : Str) (tabSize : Int) : Str :=
  expandTabsLoop tabSize s 0

/-- The snapshot of the live state pushed by `saveAction`, `undo` and `redo`. -/
def toSnap (m : Model) : Snap :=
  { content := deepCopyContent m.content, cursorX := m.cursorX, cursorY := m.cursorY }

/-- Go `saveAction`: push a pre-edit checkpoint, clear the redo stack. -/
def saveAction (m : Model) : Model :=
  { m with undoStack := m.undoStack ++ [toSnap m], redoStack := [] }

/-- Go `undo`. -/
def undo (m : Model) : Model :=
  match m.undoStack.getLast? with
  | some lastAction =>
    { m with
      redoStack := m.redoStack ++ [toSnap m],
      undoStack := m.undoStack.dropLast,
      content := deepCopyContent lastAction.content,
      cursorX := lastAction.cursorX,
      cursorY := lastAction.cursorY,
      modified := true,
      statusMsg := str "Undo performed" }
  | none => { m with statusMsg := str "Nothing to undo" }

/-- Go `redo`. -/
def redo (m : Model) : Model :=
  match m.redoStack.getLast? with
  | some lastAction =>
    { m with
      undoStack := m.undoStack ++ [toSnap m],
      redoStack := m.redoStack.dropLast,
      content := deepCopyContent lastAction.content,
      cursorX := lastAction.cursorX,
      cursorY := lastAction.cursorY,
      modified := true,
      statusMsg := str "Redo performed" }
  | none => { m with statusMsg := str "Nothing to redo" }

/-- Go `adjustOffset`. -/
def adjustOffset (m : Model) : Model :=
  if m.cursorY < m.offsetY then { m with offsetY := m.cursorY }
  else if m.cursorY ≥ m.offsetY + m.height then
    { m with offsetY := m.cursorY - m.height + 1 }
  else m

/-- Go `moveCursor`: apply the delta, clamp the row, then clamp the column
against the (post-row-clamp) current line. -/
def moveCursor (m : Model) (dx dy : Int) : Option Model :=
  let x0 := m.cursorX + dx
  let y0 := m.cursorY + dy
  let y1 := if y0 < 0 then 0
            else if y0 ≥ (m.content.length : Int) then (m.content.length : Int) - 1
            else y0
  match getLine m.content y1 with
  | none => none
  | some line =>
    let x1 := if x0 < 0 then 0
              else if x0 > (line.length : Int) then (line.length : Int)
              else x0
    some (adjustOffset { m with cursorX := x1, cursorY := y1 })

/-- The row loop of Go `findNext`, over the remaining rows (structural
recursion on the suffix of the buffer from the start row).  The outer
`Option` is the panic monad; the inner one is the found position. -/
def findNextRows (term : Str) : List Str → Nat → Int → Option (Option (Nat × Nat))
  | [], _, _ => some none
  | line :: rest, y, startX =>
    match sliceFrom line startX with
    | none => none
    | some r =>
      match goIndex r term with
      | some x => some (some (y, startX.toNat + x))
      | none => findNextRows term rest (y + 1) 0

/-- The row loop of Go `findNext`: from row `y` scanning `content[y][startX:]`,
resetting `startX` to 0 on each later row. -/
def findNextLoop (content : List Str) (term : Str) (y : Nat) (startX : Int) :
    Option (Option (Nat × Nat)) :=
  findNextRows term (content.drop y) y startX

/-- Go `findNext`: linear scan from `(cursorY, cursorX+1)`, no wraparound. -/
def findNext (m : Model) : Option Model :=
  if m.cursorY < 0 then none
  else
    match findNextLoop m.content m.searchTerm m.cursorY.toNat (m.cursorX + 1) with
    | none => none
    | some (some (y, x)) =>
      some (adjustOffset { m with cursorY := (y : Int), cursorX := (x : Int) })
    | some none =>
      some { m with statusMsg := str "Pattern not found: " ++ m.searchTerm }

/-- One row of the Go `findPrevious` loop: look up row `y`, reset a negative
start column to the line end, and search `content[y][:startX+1]` backward.
`none` is a panic; `some r` carries the optional match column. -/
def findPrevRow (content : List Str) (term : Str) (y : Nat) (startX : Int) :
    Option (Option Nat) :=
  match getLine content (y : Int) with
  | none => none
  | some line =>
    let sx := if startX < 0 then (line.length : Int) - 1 else startX
    match sliceTo line (sx + 1) with
    | none => none
    | some seg => some (goLastIndex seg term)

/-- The row loop of Go `findPrevious`, scanning rows downward. -/
def findPrevLoop (content : List Str) (term : Str) : Nat → Int → Option (Option (Nat × Nat))
  | 0, startX =>
    match findPrevRow content term 0 startX with
    | none => none
    | some (some x) => some (some (0, x))
    | some none => some none
  | y + 1, startX =>
    match findPrevRow content term (y + 1) startX with
    | none => none
    | some (some x) => some (some (y + 1, x))
    | some none => findPrevLoop content term y (-1)

/-- Go `findPrevious`: backward scan from `(cursorY, cursorX-1)`, no wraparound. -/
def findPrevious (m : Model) : Option Model :=
  if m.cursorY < 0 then
    some { m with statusMsg := str "Pattern not found: " ++ m.searchTerm }
  else
    match findPrevLoop m.content m.searchTerm m.cursorY.toNat (m.cursorX - 1) with
    | none => none
    | some (some (y, x)) =>
      some (adjustOffset { m with cursorY := (y : Int), cursorX := (x : Int) })
    | some none =>
      some { m with statusMsg := str "Pattern not found: " ++ m.searchTerm }

/-- The line loop of Go `replaceAll`: new lines, total count, and whether
any line changed (which is when Go sets the modified flag). -/
def replaceLines (lines : List Str) (term repl : Str) : List Str × Nat × Bool :=
  match lines with
  | [] => ([], 0, false)
  | line :: rest =>
    let newLine := goReplaceAll line term repl
    let r := replaceLines rest term repl
    if newLine ≠ line then (newLine :: r.1, goCount line term + r.2.1, true)
    else (line :: r.1, r.2.1, r.2.2)

/-- Go `replaceAll`. -/
def replaceAll (m : Model) : Model :=
  let r := replaceLines m.content m.searchTerm m.replaceTerm
  { m with
    content := r.1,
    modified := if r.2.2 then true else m.modified,
    statusMsg := str "Replaced " ++ (toString r.2.1).toList ++ str " occurrences" }

/-- Go `saveFile`, successful-write path (file I/O itself is external). -/
def saveFile (m : Model) : Model :=
  { m with statusMsg := str "File saved successfully", modified := false }

/-- The tab loop of Go `handleInsertMode`: insert one space at the cursor
and advance, `n` times. -/
def tabLoop : Model → Nat → Option Model
  | m, 0 => some m
  | m, n + 1 =>
    match getLine m.content m.cursorY with
    | none => none
    | some line =>
      match sliceTo line m.cursorX, sliceFrom line m.cursorX with
      | some pre, some suf =>
        tabLoop
          { m with content := setLine m.content m.cursorY (pre ++ ' ' :: suf),
                   cursorX := m.cursorX + 1 } n
      | _, _ => none

/-- The switch of Go `handleInsertMode` (before the final adjustOffset). -/
def insertModeCore (m : Model) (k : Key) : Option Model :=
  match k with
  | Key.esc =>
    let m1 := { m with mode := Mode.normalMode, statusMsg := str "Normal mode" }
    some (if m1.cursorX > 0 then { m1 with cursorX := m1.cursorX - 1 } else m1)
  | Key.enter =>
    let m1 := saveAction m
    match getLine m1.content m1.cursorY with
    | none => none
    | some line =>
      match sliceFrom line m1.cursorX, sliceTo line m1.cursorX with
      | some newLine, some pre =>
        let c1 := setLine m1.content m1.cursorY pre
        match sliceTo c1 (m1.cursorY + 1), sliceFrom c1 (m1.cursorY + 1) with
        | some cpre, some csuf =>
          some { m1 with content := cpre ++ [newLine] ++ csuf,
                         cursorY := m1.cursorY + 1, cursorX := 0, modified := true }
        | _, _ => none
      | _, _ => none
  | Key.backspace =>
    if m.cursorX > 0 then
      match getLine m.content m.cursorY with
      | none => none
      | some line =>
        match sliceTo line (m.cursorX - 1), sliceFrom line m.cursorX with
        | some pre, some suf =>
          some { m with content := setLine m.content m.cursorY (pre ++ suf),
                        cursorX := m.cursorX - 1, modified := true }
        | _, _ => none
    else if m.cursorY > 0 then
      match getLine m.content (m.cursorY - 1), getLine m.content m.cursorY with
      | some prevLine, some curLine =>
        let c1 := setLine m.content (m.cursorY - 1) (prevLine ++ curLine)
        match sliceTo c1 m.cursorY, sliceFrom c1 (m.cursorY + 1) with
        | some cpre, some csuf =>
          some { m with content := cpre ++ csuf,
                        cursorY := m.cursorY - 1, cursorX := (prevLine.length : Int),
                        modified := true }
        | _, _ => none
      | _, _ => none
    else some m
  | Key.tab =>
    match tabLoop m m.tabSize.toNat with
    | none => none
    | some m1 => some { m1 with modified := true }
  | Key.char c =>
    let m1 := saveAction m
    match getLine m1.content m1.cursorY with
    | none => none
    | some line =>
      match sliceTo line m1.cursorX, sliceFrom line m1.cursorX with
      | some pre, some suf =>
        some { m1 with content := setLine m1.content m1.cursorY (pre ++ c :: suf),
                       cursorX := m1.cursorX + 1, modified := true }
      | _, _ => none
  | _ => some m

/-- Go `handleInsertMode`: the switch, then `adjustOffset`. -/
def handleInsertMode (m : Model) (k : Key) : Option Model :=
  match insertModeCore m k with
  | none => none
  | some m1 => some (adjustOffset m1)

/-- Go `handleNormalMode`.  The quit pathways (`q` when unmodified,
`q!`, ctrl+c) only emit a quit command to the terminal driver, so they
leave the state unchanged here. -/
def handleNormalMode (m : Model) (k : Key) : Option Model :=
  match k with
  | Key.char 'q' =>
    if m.modified then
      some { m with statusMsg := str "Unsaved changes. Use :q! to force quit." }
    else some m
  | Key.char 'i' => some { m with mode := Mode.insertMode, statusMsg := str "Insert mode" }
  | Key.char 'h' => moveCursor m (-1) 0
  | Key.left => moveCursor m (-1) 0
  | Key.char 'l' => moveCursor m 1 0
  | Key.right => moveCursor m 1 0
  | Key.char 'k' => moveCursor m 0 (-1)
  | Key.up => moveCursor m 0 (-1)
  | Key.char 'j' => moveCursor m 0 1
  | Key.down => moveCursor m 0 1
  | Key.char 'g' => some { m with cursorY := 0, offsetY := 0 }
  | Key.char 'G' => some (adjustOffset { m with cursorY := (m.content.length : Int) - 1 })
  | Key.char '0' => some { m with cursorX := 0 }
  | Key.char '$' =>
    match getLine m.content m.cursorY with
    | none => none
    | some line => some { m with cursorX := (line.length : Int) }
  | Key.char 'x' =>
    match getLine m.content m.cursorY with
    | none => none
    | some line =>
      if m.cursorX < (line.length : Int) then
        match sliceTo line m.cursorX, sliceFrom line (m.cursorX + 1) with
        | some pre, some suf =>
          some { m with content := setLine m.content m.cursorY (pre ++ suf),
                        modified := true }
        | _, _ => none
      else some m
  | Key.char 'd' =>
    if m.cursorY < (m.content.length : Int) - 1 then
      match getLine m.content m.cursorY with
      | none => none
      | some line =>
        match sliceTo m.content m.cursorY, sliceFrom m.content (m.cursorY + 1) with
        | some cpre, some csuf =>
          let m1 := { m with clipboard := line, content := cpre ++ csuf, modified := true }
          some (if m1.cursorY ≥ (m1.content.length : Int)
                then { m1 with cursorY := (m1.content.length : Int) - 1 }
                else m1)
        | _, _ => none
    else some m
  | Key.char 'u' => some (undo m)
  | Key.ctrlR => some (redo m)
  | Key.char 'y' =>
    if m.cursorY < (m.content.length : Int) then
      match getLine m.content m.cursorY with
      | none => none
      | some line =>
        some { m with clipboard := line, statusMsg := str "Line yanked to clipboard" }
    else some m
  | Key.char 'p' =>
    if m.clipboard ≠ [] then
      let m1 := saveAction m
      match sliceTo m1.content (m1.cursorY + 1), sliceFrom m1.content m1.cursorY with
      | some cpre, some csuf =>
        some { m1 with content := (cpre ++ csuf).set (m1.cursorY.toNat + 1) m1.clipboard,
                       cursorY := m1.cursorY + 1, modified := true,
                       statusMsg := str "Line pasted from clipboard" }
      | _, _ => none
    else some m
  | Key.char '/' =>
    some { m with mode := Mode.searchMode, statusMsg := str "/", searchTerm := [] }
  | Key.char 'n' => findNext m
  | Key.char 'N' => findPrevious m
  | Key.char ':' => some { m with statusMsg := str ":" }
  | Key.char 'w' => if m.statusMsg = str ":" then some (saveFile m) else some m
  | Key.ctrlC => some m
  | Key.pageup => moveCursor m 0 (-m.height)
  | Key.pagedown => moveCursor m 0 m.height
  | _ => some m

/-- Go `handleSearchMode`. -/
def handleSearchMode (m : Model) (k : Key) : Option Model :=
  match k with
  | Key.esc => some { m with mode := Mode.normalMode, statusMsg := str "Normal mode" }
  | Key.enter =>
    match findNext m with
    | none => none
    | some m1 => some { m1 with mode := Mode.normalMode }
  | Key.backspace =>
    if m.searchTerm ≠ [] then
      let t := m.searchTerm.dropLast
      some { m with searchTerm := t, statusMsg := str "/" ++ t }
    else some m
  | Key.char c =>
    let t := m.searchTerm ++ [c]
    some { m with searchTerm := t, statusMsg := str "/" ++ t }
  | _ => some m

/-- Go `handleReplaceMode`. -/
def handleReplaceMode (m : Model) (k : Key) : Option Model :=
  match k with
  | Key.esc => some { m with mode := Mode.normalMode, statusMsg := str "Normal mode" }
  | Key.enter => some { replaceAll m with mode := Mode.normalMode }
  | Key.backspace =>
    if m.replaceTerm ≠ [] then
      let t := m.replaceTerm.dropLast
      some { m with replaceTerm := t, statusMsg := str "Replace with: " ++ t }
    else some m
  | Key.char c =>
    let t := m.replaceTerm ++ [c]
    some { m with replaceTerm := t, statusMsg := str "Replace with: " ++ t }
  | _ => some m

/-- Go `Update` restricted to key messages: dispatch on the current mode. -/
def update (m : Model) (k : Key) : Option Model :=
  match m.mode with
  | Mode.normalMode => handleNormalMode m k
  | Mode.insertMode => handleInsertMode m k
  | Mode.searchMode => handleSearchMode m k
  | Mode.replaceMode => handleReplaceMode m k

/-- Process a sequence of key events; `none` if any of them panics. -/
def run (m : Model) (ks : List Key) : Option Model :=
  match ks with
  | [] => some m
  | k :: rest =>
    match update m k with
    | none => none
    | some m1 => run m1 rest

/-- Go `initialModel`, taking the loaded file lines as input
(`[[]]` when no file is given, as in the source). -/
def initialModel (content : List Str) : Model :=
  { content := content, cursorX := 0, cursorY := 0, offsetY := 0,
    width := 0, height := 0, mode := Mode.normalMode, filename := [],
    statusMsg := str "Normal mode", searchTerm := [], replaceTerm := [],
    clipboard := [], modified := false, tabSize := 4,
    undoStack := [], redoStack := [] }

/-! Abstractions and concrete states used by the claim theorems below. -/

/-- The observable buffer-and-cursor part of a state, the part the undo/redo
round-trip law speaks about. -/
def cc (m : Model) : List Str × Int × Int := (m.content, m.cursorX, m.cursorY)

/-- An edit step that checkpoints: it pushes exactly one pre-edit snapshot
onto the undo stack and clears the redo stack, which is what every
`saveAction`-guarded edit of the source does (character insert, newline
split, paste); see the claim C2 theorem. -/
def Checkpoints (f : Model → Model) : Prop :=
  ∀ m, (f m).undoStack = m.undoStack ++ [toSnap m] ∧ (f m).redoStack = []

def applyEdits (fs : List (Model → Model)) (m : Model) : Model :=
  fs.foldl (fun s f => f s) m

/-- The pre-edit snapshots pushed while applying a list of checkpointing
edits, oldest first. -/
def snaps : List (Model → Model) → Model → List Snap
  | [], _ => []
  | f :: rest, m => toSnap m :: snaps rest (f m)

def undoN : Nat → Model → Model
  | 0, m => m
  | k + 1, m => undoN k (undo m)

def redoN : Nat → Model → Model
  | 0, m => m
  | k + 1, m => redoN k (redo m)

/-- The redo stack contents after undoing from the end of `fs` down to
position `j`: snapshots of the states after `fs.length, ..., j+1` edits,
in that (most-recent-state-first-pushed, so last popped) order. -/
def descSnaps (fs : List (Model → Model)) (m0 : Model) (j : Nat) : List Snap :=
  (List.range (fs.length - j)).map
    (fun i => toSnap (applyEdits (fs.take (fs.length - i)) m0))

/-- Invariant tying a state `X` reached by undos/redos to position `j` of the
edit history. -/
def Inv (fs : List (Model → Model)) (m0 : Model) (j : Nat) (X : Model) : Prop :=
  cc X = cc (applyEdits (fs.take j) m0)
  ∧ X.undoStack = m0.undoStack ++ snaps (fs.take j) m0
  ∧ X.redoStack = descSnaps fs m0 j

def m5c : Model :=
  { initialModel [str "hello world", str "world peace"] with searchTerm := str "world" }

def c6keys : List Key :=
  [Key.char 'i', Key.char 'a', Key.char 'b', Key.esc,
   Key.char '/', Key.char 'a', Key.esc, Key.char '$']

def c3keys : List Key :=
  [Key.char 'i', Key.char 'a', Key.enter, Key.char 'w', Key.char 'x',
   Key.char 'y', Key.char 'z', Key.esc, Key.char '$', Key.char 'g']

def c4keys : List Key :=
  [Key.char 'i', Key.char 'a', Key.esc, Key.char 'u',
   Key.char 'i', Key.tab, Key.esc, Key.ctrlR]

def c7keys : List Key :=
  [Key.char 'i', Key.char 'a', Key.enter, Key.char 'b', Key.esc, Key.char 'd']

def m9c : Model :=
  { initialModel [str "abb"] with searchTerm := str "ab", replaceTerm := str "a" }

def c10keys : List Key :=
  [Key.char 'i', Key.char 'a', Key.char 'b', Key.esc, Key.char 'i', Key.tab]

def c10m : Model := { initialModel [str "ab"] with mode := Mode.insertMode, cursorX := 1 }

def c8wm : Model := { initialModel [str "ab"] with replaceTerm := str "x" }

def c9wm : Model :=
  { initialModel [str "abcab"] with searchTerm := str "a", replaceTerm := str "xy" }

lemma deepCopyContent_eq (c : List Str) : deepCopyContent c = c := by
  simp [deepCopyContent]

lemma toSnap_eq (m : Model) :
    toSnap m = { content := m.content, cursorX := m.cursorX, cursorY := m.cursorY } := by
  simp [toSnap, deepCopyContent_eq]

lemma toSnap_congr {a b : Model} (h : cc a = cc b) : toSnap a = toSnap b := by
  rw [toSnap_eq, toSnap_eq]
  simp only [cc, Prod.mk.injEq] at h
  obtain ⟨h1, h2, h3⟩ := h
  rw [h1, h2, h3]

lemma undo_concat (m : Model) (u : List Snap) (p : Snap) (h : m.undoStack = u ++ [p]) :
    undo m = { m with content := p.content, cursorX := p.cursorX, cursorY := p.cursorY,
                      undoStack := u, redoStack := m.redoStack ++ [toSnap m],
                      modified := true, statusMsg := str "Undo performed" } := by
  unfold undo
  rw [h, List.getLast?_concat]
  simp [deepCopyContent_eq, h]

lemma undo_nil (m : Model) (h : m.undoStack = []) :
    undo m = { m with statusMsg := str "Nothing to undo" } := by
  unfold undo
  rw [h]
  rfl

lemma redo_concat (m : Model) (u : List Snap) (p : Snap) (h : m.redoStack = u ++ [p]) :
    redo m = { m with content := p.content, cursorX := p.cursorX, cursorY := p.cursorY,
                      redoStack := u, undoStack := m.undoStack ++ [toSnap m],
                      modified := true, statusMsg := str "Redo performed" } := by
  unfold redo
  rw [h, List.getLast?_concat]
  simp [deepCopyContent_eq, h]

lemma redo_nil (m : Model) (h : m.redoStack = []) :
    redo m = { m with statusMsg := str "Nothing to redo" } := by
  unfold redo
  rw [h]
  rfl

lemma applyEdits_nil (m : Model) : applyEdits [] m = m := rfl

lemma applyEdits_cons (f : Model → Model) (fs : List (Model → Model)) (m : Model) :
    applyEdits (f :: fs) m = applyEdits fs (f m) := rfl

lemma applyEdits_stacks (fs : List (Model → Model)) (m : Model)
    (hck : ∀ f ∈ fs, Checkpoints f) :
    (applyEdits fs m).undoStack = m.undoStack ++ snaps fs m
    ∧ ((applyEdits fs m).redoStack = [] ∨ fs = []) := by
  induction fs generalizing m with
  | nil => simp [applyEdits_nil, snaps]
  | cons f rest ih =>
    have hf : Checkpoints f := hck f (by simp)
    have hrest : ∀ g ∈ rest, Checkpoints g := fun g hg => hck g (by simp [hg])
    obtain ⟨ih1, ih2⟩ := ih (f m) hrest
    constructor
    · rw [applyEdits_cons, ih1, (hf m).1, snaps]
      simp
    · left
      rcases ih2 with h | h
      · rw [applyEdits_cons, h]
      · rw [applyEdits_cons, h, applyEdits_nil, (hf m).2]

lemma snaps_take_succ (fs : List (Model → Model)) (j : Nat) (m0 : Model)
    (h : j < fs.length) :
    snaps (fs.take (j + 1)) m0
      = snaps (fs.take j) m0 ++ [toSnap (applyEdits (fs.take j) m0)] := by
  induction fs generalizing j m0 with
  | nil => simp at h
  | cons f rest ih =>
    cases j with
    | zero => simp [snaps, applyEdits_nil]
    | succ j1 =>
      have h1 : j1 < rest.length := by simpa using h
      simp only [List.take_succ_cons, snaps, applyEdits_cons]
      rw [ih j1 (f m0) h1]
      simp

lemma descSnaps_top (fs : List (Model → Model)) (m0 : Model) :
    descSnaps fs m0 fs.length = [] := by
  simp [descSnaps]

lemma descSnaps_succ (fs : List (Model → Model)) (m0 : Model) (j : Nat)
    (h : j < fs.length) :
    descSnaps fs m0 j
      = descSnaps fs m0 (j + 1) ++ [toSnap (applyEdits (fs.take (j + 1)) m0)] := by
  unfold descSnaps
  have h1 : fs.length - j = (fs.length - (j + 1)) + 1 := by omega
  rw [h1, List.range_succ, List.map_append]
  have h2 : fs.length - (fs.length - (j + 1)) = j + 1 := by omega
  simp [h2]

lemma Inv_start (fs : List (Model → Model)) (m0 : Model)
    (hck : ∀ f ∈ fs, Checkpoints f) (hne : fs ≠ []) :
    Inv fs m0 fs.length (applyEdits fs m0) := by
  obtain ⟨h1, h2⟩ := applyEdits_stacks fs m0 hck
  refine ⟨by rw [List.take_length], by rw [List.take_length]; exact h1, ?_⟩
  rw [descSnaps_top]
  rcases h2 with h | h
  · exact h
  · exact absurd h hne

lemma Inv_undo (fs : List (Model → Model)) (m0 : Model) (j : Nat) (X : Model)
    (h : j < fs.length) (hX : Inv fs m0 (j + 1) X) :
    Inv fs m0 j (undo X) := by
  obtain ⟨hcc, hu, hr⟩ := hX
  have hsplit : X.undoStack
      = (m0.undoStack ++ snaps (fs.take j) m0) ++ [toSnap (applyEdits (fs.take j) m0)] := by
    rw [hu, snaps_take_succ fs j m0 h, List.append_assoc]
  rw [undo_concat X _ _ hsplit]
  refine ⟨?_, ?_, ?_⟩
  · simp [cc, toSnap_eq]
  · simp
  · simp only
    rw [hr, descSnaps_succ fs m0 j h, toSnap_congr hcc]

lemma Inv_redo (fs : List (Model → Model)) (m0 : Model) (j : Nat) (X : Model)
    (h : j < fs.length) (hX : Inv fs m0 j X) :
    Inv fs m0 (j + 1) (redo X) := by
  obtain ⟨hcc, hu, hr⟩ := hX
  have hsplit : X.redoStack
      = descSnaps fs m0 (j + 1) ++ [toSnap (applyEdits (fs.take (j + 1)) m0)] := by
    rw [hr, descSnaps_succ fs m0 j h]
  rw [redo_concat X _ _ hsplit]
  refine ⟨?_, ?_, ?_⟩
  · simp [cc, toSnap_eq]
  · simp only
    rw [hu, snaps_take_succ fs j m0 h, toSnap_congr hcc, List.append_assoc]
  · simp

lemma undoN_Inv (fs : List (Model → Model)) (m0 : Model) (k : Nat) :
    ∀ (j : Nat) (X : Model), Inv fs m0 (j + k) X → j + k ≤ fs.length →
      Inv fs m0 j (undoN k X) := by
  induction k with
  | zero => intro j X hX _; simpa using hX
  | succ k1 ih =>
    intro j X hX hle
    have h1 : j + k1 < fs.length := by omega
    have h2 : Inv fs m0 (j + k1) (undo X) := by
      have := Inv_undo fs m0 (j + k1) X h1 (by rwa [show j + (k1 + 1) = (j + k1) + 1 by omega] at hX)
      exact this
    exact ih j (undo X) h2 (by omega)

lemma redoN_Inv (fs : List (Model → Model)) (m0 : Model) (k : Nat) :
    ∀ (j : Nat) (X : Model), Inv fs m0 j X → j + k ≤ fs.length →
      Inv fs m0 (j + k) (redoN k X) := by
  induction k with
  | zero => intro j X hX _; simpa using hX
  | succ k1 ih =>
    intro j X hX hle
    have h1 : j < fs.length := by omega
    have h2 : Inv fs m0 (j + 1) (redo X) := Inv_redo fs m0 j X h1 hX
    have h3 := ih (j + 1) (redo X) h2 (by omega)
    rwa [show j + 1 + k1 = j + (k1 + 1) by omega] at h3

/-- Claim C1 (amended): for edit actions that push a checkpoint, the round
trip law holds transitively for any depth. -/
theorem C1_roundtrip (fs : List (Model → Model)) (m0 : Model) (k : Nat)
    (hck : ∀ f ∈ fs, Checkpoints f) (hk : k ≤ fs.length) :
    cc (undoN k (applyEdits fs m0)) = cc (applyEdits (fs.take (fs.length - k)) m0)
  ∧ cc (redoN k (undoN k (applyEdits fs m0))) = cc (applyEdits fs m0) := by
  by_cases hne : fs = []
  · subst hne
    have hk0 : k = 0 := by simpa using hk
    subst hk0
    simp [undoN, redoN]
  · have h1 := Inv_start fs m0 hck hne
    have heq : (fs.length - k) + k = fs.length := Nat.sub_add_cancel hk
    have h2 : Inv fs m0 (fs.length - k) (undoN k (applyEdits fs m0)) := by
      apply undoN_Inv fs m0 k (fs.length - k) (applyEdits fs m0)
      · rwa [heq]
      · omega
    have h3 : Inv fs m0 ((fs.length - k) + k) (redoN k (undoN k (applyEdits fs m0))) :=
      redoN_Inv fs m0 k (fs.length - k) (undoN k (applyEdits fs m0)) h2 (by omega)
    refine ⟨h2.1, ?_⟩
    have := h3.1
    rwa [heq, List.take_length] at this

/-- Witness for the claim C1 theorem at a concrete checkpointing edit. -/
theorem C1_roundtrip_witness :
    cc (undoN 1 (applyEdits [fun m => { saveAction m with content := [str "a"], cursorX := 1, cursorY := 0 }] (initialModel [[]])))
      = cc (applyEdits (List.take 0 [fun m => { saveAction m with content := [str "a"], cursorX := 1, cursorY := 0 }]) (initialModel [[]]))
  ∧ cc (redoN 1 (undoN 1 (applyEdits [fun m => { saveAction m with content := [str "a"], cursorX := 1, cursorY := 0 }] (initialModel [[]]))))
      = cc (applyEdits [fun m => { saveAction m with content := [str "a"], cursorX := 1, cursorY := 0 }] (initialModel [[]])) :=
  C1_roundtrip
    [fun m => { saveAction m with content := [str "a"], cursorX := 1, cursorY := 0 }]
    (initialModel [[]]) 1
    (by
      intro f hf
      simp only [List.mem_singleton] at hf
      subst hf
      intro m
      exact ⟨rfl, rfl⟩)
    (by decide)

@[simp] lemma saveAction_content (m : Model) : (saveAction m).content = m.content := rfl
@[simp] lemma saveAction_cursorX (m : Model) : (saveAction m).cursorX = m.cursorX := rfl
@[simp] lemma saveAction_cursorY (m : Model) : (saveAction m).cursorY = m.cursorY := rfl
@[simp] lemma saveAction_undoStack (m : Model) :
    (saveAction m).undoStack = m.undoStack ++ [toSnap m] := rfl
@[simp] lemma saveAction_redoStack (m : Model) : (saveAction m).redoStack = [] := rfl
@[simp] lemma saveAction_clipboard (m : Model) : (saveAction m).clipboard = m.clipboard := rfl
@[simp] lemma saveAction_tabSize (m : Model) : (saveAction m).tabSize = m.tabSize := rfl

@[simp] lemma adjustOffset_content (m : Model) : (adjustOffset m).content = m.content := by
  unfold adjustOffset; split_ifs <;> rfl
@[simp] lemma adjustOffset_cursorX (m : Model) : (adjustOffset m).cursorX = m.cursorX := by
  unfold adjustOffset; split_ifs <;> rfl
@[simp] lemma adjustOffset_cursorY (m : Model) : (adjustOffset m).cursorY = m.cursorY := by
  unfold adjustOffset; split_ifs <;> rfl
@[simp] lemma adjustOffset_undoStack (m : Model) :
    (adjustOffset m).undoStack = m.undoStack := by
  unfold adjustOffset; split_ifs <;> rfl
@[simp] lemma adjustOffset_redoStack (m : Model) :
    (adjustOffset m).redoStack = m.redoStack := by
  unfold adjustOffset; split_ifs <;> rfl
@[simp] lemma adjustOffset_statusMsg (m : Model) :
    (adjustOffset m).statusMsg = m.statusMsg := by
  unfold adjustOffset; split_ifs <;> rfl
@[simp] lemma adjustOffset_modified (m : Model) :
    (adjustOffset m).modified = m.modified := by
  unfold adjustOffset; split_ifs <;> rfl

lemma getLine_some {content : List Str} {y : Int} {line : Str}
    (h : getLine content y = some line) :
    0 ≤ y ∧ y.toNat < content.length ∧ content[y.toNat]? = some line := by
  unfold getLine at h
  split at h
  · refine ⟨by assumption, ?_, h⟩
    have := List.getElem?_eq_some.mp h
    exact this.1
  · exact absurd h (by simp)

lemma handleInsertMode_eq (m : Model) (k : Key) :
    handleInsertMode m k
      = (match insertModeCore m k with
         | none => none
         | some m1 => some (adjustOffset m1)) := rfl

lemma insertModeCore_char (m : Model) (c : Char) :
    insertModeCore m (Key.char c)
      = (match getLine (saveAction m).content (saveAction m).cursorY with
         | none => none
         | some line =>
           match sliceTo line (saveAction m).cursorX, sliceFrom line (saveAction m).cursorX with
           | some pre, some suf =>
             some { saveAction m with
                    content := setLine (saveAction m).content (saveAction m).cursorY (pre ++ c :: suf),
                    cursorX := (saveAction m).cursorX + 1, modified := true }
           | _, _ => none) := rfl

lemma insertModeCore_enter (m : Model) :
    insertModeCore m Key.enter
      = (match getLine (saveAction m).content (saveAction m).cursorY with
         | none => none
         | some line =>
           match sliceFrom line (saveAction m).cursorX, sliceTo line (saveAction m).cursorX with
           | some newLine, some pre =>
             match sliceTo (setLine (saveAction m).content (saveAction m).cursorY pre) ((saveAction m).cursorY + 1),
                   sliceFrom (setLine (saveAction m).content (saveAction m).cursorY pre) ((saveAction m).cursorY + 1) with
             | some cpre, some csuf =>
               some ({ saveAction m with
                       content := cpre ++ [newLine] ++ csuf,
                       cursorY := (saveAction m).cursorY + 1,
                       cursorX := 0,
                       modified := true })
             | _, _ => none
           | _, _ => none) := rfl

lemma insertModeCore_backspace (m : Model) :
    insertModeCore m Key.backspace
      = (if m.cursorX > 0 then
           match getLine m.content m.cursorY with
           | none => none
           | some line =>
             match sliceTo line (m.cursorX - 1), sliceFrom line m.cursorX with
             | some pre, some suf =>
               some { m with content := setLine m.content m.cursorY (pre ++ suf),
                             cursorX := m.cursorX - 1, modified := true }
             | _, _ => none
         else if m.cursorY > 0 then
           match getLine m.content (m.cursorY - 1), getLine m.content m.cursorY with
           | some prevLine, some curLine =>
             match sliceTo (setLine m.content (m.cursorY - 1) (prevLine ++ curLine)) m.cursorY,
                   sliceFrom (setLine m.content (m.cursorY - 1) (prevLine ++ curLine)) (m.cursorY + 1) with
             | some cpre, some csuf =>
               some { m with content := cpre ++ csuf,
                             cursorY := m.cursorY - 1, cursorX := (prevLine.length : Int),
                             modified := true }
             | _, _ => none
           | _, _ => none
         else some m) := rfl

lemma insertModeCore_tab (m : Model) :
    insertModeCore m Key.tab
      = (match tabLoop m m.tabSize.toNat with
         | none => none
         | some m1 => some { m1 with modified := true }) := rfl

lemma handleNormalMode_p (m : Model) :
    handleNormalMode m (Key.char 'p')
      = (if m.clipboard ≠ [] then
           match sliceTo (saveAction m).content ((saveAction m).cursorY + 1),
                 sliceFrom (saveAction m).content (saveAction m).cursorY with
           | some cpre, some csuf =>
             some { saveAction m with
                    content := (cpre ++ csuf).set ((saveAction m).cursorY.toNat + 1) (saveAction m).clipboard,
                    cursorY := (saveAction m).cursorY + 1, modified := true,
                    statusMsg := str "Line pasted from clipboard" }
           | _, _ => none
         else some m) := rfl

lemma handleNormalMode_x (m : Model) :
    handleNormalMode m (Key.char 'x')
      = (match getLine m.content m.cursorY with
         | none => none
         | some line =>
           if m.cursorX < (line.length : Int) then
             match sliceTo line m.cursorX, sliceFrom line (m.cursorX + 1) with
             | some pre, some suf =>
               some { m with content := setLine m.content m.cursorY (pre ++ suf),
                             modified := true }
             | _, _ => none
           else some m) := rfl

lemma handleNormalMode_d (m : Model) :
    handleNormalMode m (Key.char 'd')
      = (if m.cursorY < (m.content.length : Int) - 1 then
           match getLine m.content m.cursorY with
           | none => none
           | some line =>
             match sliceTo m.content m.cursorY, sliceFrom m.content (m.cursorY + 1) with
             | some cpre, some csuf =>
               some (if m.cursorY ≥ ((cpre ++ csuf).length : Int)
                     then { m with clipboard := line, content := cpre ++ csuf,
                                   modified := true,
                                   cursorY := ((cpre ++ csuf).length : Int) - 1 }
                     else { m with clipboard := line, content := cpre ++ csuf,
                                   modified := true })
             | _, _ => none
         else some m) := rfl

lemma tabLoop_stacks (n : Nat) :
    ∀ m m2 : Model, tabLoop m n = some m2 →
      m2.undoStack = m.undoStack ∧ m2.redoStack = m.redoStack := by
  induction n with
  | zero =>
    intro m m2 h
    simp only [tabLoop, Option.some.injEq] at h
    subst h
    exact ⟨rfl, rfl⟩
  | succ k ih =>
    intro m m2 h
    unfold tabLoop at h
    repeat' split at h
    all_goals first
      | exact absurd h (by simp)
      | (obtain ⟨h1, h2⟩ := ih _ _ h; simp_all)

/-- Claim C2 (amended): of the discrete edit actions, exactly character
insert, newline split (enter) and paste (with a nonempty clipboard) push one
pre-edit checkpoint onto the undo stack; character delete (x), backspace
(both the in-line delete and the line join), tab, and line delete (d) push
none. -/
theorem C2_checkpoint_granularity :
    (∀ (m : Model) (c : Char) (m2 : Model), handleInsertMode m (Key.char c) = some m2 →
       m2.undoStack = m.undoStack ++ [toSnap m])
  ∧ (∀ (m m2 : Model), handleInsertMode m Key.enter = some m2 →
       m2.undoStack = m.undoStack ++ [toSnap m])
  ∧ (∀ (m m2 : Model), m.clipboard ≠ [] → handleNormalMode m (Key.char 'p') = some m2 →
       m2.undoStack = m.undoStack ++ [toSnap m])
  ∧ (∀ (m m2 : Model), handleInsertMode m Key.backspace = some m2 →
       m2.undoStack = m.undoStack)
  ∧ (∀ (m m2 : Model), handleInsertMode m Key.tab = some m2 →
       m2.undoStack = m.undoStack)
  ∧ (∀ (m m2 : Model), handleNormalMode m (Key.char 'x') = some m2 →
       m2.undoStack = m.undoStack)
  ∧ (∀ (m m2 : Model), handleNormalMode m (Key.char 'd') = some m2 →
       m2.undoStack = m.undoStack) := by
  refine ⟨?_, ?_, ?_, ?_, ?_, ?_, ?_⟩
  · intro m c m2 h
    rw [handleInsertMode_eq] at h
    cases hc : insertModeCore m (Key.char c) with
    | none => rw [hc] at h; exact absurd h (by simp)
    | some m1 =>
      rw [hc] at h
      simp only [Option.some.injEq] at h
      subst h
      rw [insertModeCore_char] at hc
      repeat' split at hc
      all_goals simp at hc
      all_goals (subst hc; simp)
  · intro m m2 h
    rw [handleInsertMode_eq] at h
    cases hc : insertModeCore m Key.enter with
    | none => rw [hc] at h; exact absurd h (by simp)
    | some m1 =>
      rw [hc] at h
      simp only [Option.some.injEq] at h
      subst h
      rw [insertModeCore_enter] at hc
      repeat' split at hc
      all_goals simp at hc
      all_goals (subst hc; simp)
  · intro m m2 hcl h
    rw [handleNormalMode_p, if_pos hcl] at h
    repeat' split at h
    all_goals simp at h
    all_goals (subst h; simp)
  · intro m m2 h
    rw [handleInsertMode_eq] at h
    cases hc : insertModeCore m Key.backspace with
    | none => rw [hc] at h; exact absurd h (by simp)
    | some m1 =>
      rw [hc] at h
      simp only [Option.some.injEq] at h
      subst h
      rw [insertModeCore_backspace] at hc
      repeat' split at hc
      all_goals simp at hc
      all_goals (subst hc; simp)
  · intro m m2 h
    rw [handleInsertMode_eq, insertModeCore_tab] at h
    cases ht : tabLoop m m.tabSize.toNat with
    | none => rw [ht] at h; exact absurd h (by simp)
    | some mt =>
      rw [ht] at h
      simp only [Option.some.injEq] at h
      obtain ⟨h1, h2⟩ := tabLoop_stacks _ _ _ ht
      rw [← h]
      simp [h1]
  · intro m m2 h
    rw [handleNormalMode_x] at h
    repeat' split at h
    all_goals simp at h
    all_goals (subst h; simp)
  · intro m m2 h
    rw [handleNormalMode_d] at h
    repeat' split at h
    all_goals simp at h
    all_goals (subst h; simp)

/-- Witness for the claim C2 theorem: a character insert from the initial
state pushes exactly the pre-edit snapshot. -/
theorem C2_witness :
    (handleInsertMode (initialModel [[]]) (Key.char 'a')).map (fun m2 => m2.undoStack)
      = some ((initialModel [[]]).undoStack ++ [toSnap (initialModel [[]])]) := by
  cases h : handleInsertMode (initialModel [[]]) (Key.char 'a') with
  | none => exact absurd h (by decide)
  | some m2 =>
    have h1 := C2_checkpoint_granularity.1 (initialModel [[]]) 'a' m2 h
    simp [h1]

/-- Claim C4 (amended): every edit that pushes a checkpoint (character
insert, newline split, paste with a nonempty clipboard) clears the redo
stack, so an immediately following redo reports "Nothing to redo" and
changes nothing but the status message. -/
theorem C4_redo_after_checkpointed_edit :
    (∀ (m : Model) (c : Char) (m2 : Model), handleInsertMode m (Key.char c) = some m2 →
       m2.redoStack = [] ∧ redo m2 = { m2 with statusMsg := str "Nothing to redo" })
  ∧ (∀ (m m2 : Model), handleInsertMode m Key.enter = some m2 →
       m2.redoStack = [] ∧ redo m2 = { m2 with statusMsg := str "Nothing to redo" })
  ∧ (∀ (m m2 : Model), m.clipboard ≠ [] → handleNormalMode m (Key.char 'p') = some m2 →
       m2.redoStack = [] ∧ redo m2 = { m2 with statusMsg := str "Nothing to redo" }) := by
  refine ⟨?_, ?_, ?_⟩
  · intro m c m2 h
    have hre : m2.redoStack = [] := by
      rw [handleInsertMode_eq] at h
      cases hc : insertModeCore m (Key.char c) with
      | none => rw [hc] at h; exact absurd h (by simp)
      | some m1 =>
        rw [hc] at h
        simp only [Option.some.injEq] at h
        subst h
        rw [insertModeCore_char] at hc
        repeat' split at hc
        all_goals simp at hc
        all_goals (subst hc; simp)
    exact ⟨hre, redo_nil m2 hre⟩
  · intro m m2 h
    have hre : m2.redoStack = [] := by
      rw [handleInsertMode_eq] at h
      cases hc : insertModeCore m Key.enter with
      | none => rw [hc] at h; exact absurd h (by simp)
      | some m1 =>
        rw [hc] at h
        simp only [Option.some.injEq] at h
        subst h
        rw [insertModeCore_enter] at hc
        repeat' split at hc
        all_goals simp at hc
        all_goals (subst hc; simp)
    exact ⟨hre, redo_nil m2 hre⟩
  · intro m m2 hcl h
    have hre : m2.redoStack = [] := by
      rw [handleNormalMode_p, if_pos hcl] at h
      repeat' split at h
      all_goals simp at h
      all_goals (subst h; simp)
    exact ⟨hre, redo_nil m2 hre⟩

/-- Witness for the claim C4 theorem at a concrete character insert. -/
theorem C4_witness :
    (handleInsertMode (initialModel [[]]) (Key.char 'b')).map (fun m2 => m2.redoStack)
      = some []
  ∧ (handleInsertMode (initialModel [[]]) (Key.char 'b')).map (fun m2 => redo m2)
      = (handleInsertMode (initialModel [[]]) (Key.char 'b')).map
          (fun m2 => { m2 with statusMsg := str "Nothing to redo" }) := by
  cases h : handleInsertMode (initialModel [[]]) (Key.char 'b') with
  | none => exact absurd h (by decide)
  | some m2 =>
    obtain ⟨h1, h2⟩ := C4_redo_after_checkpointed_edit.1 (initialModel [[]]) 'b' m2 h
    exact ⟨by simp [h1], by simp [h2]⟩

/-- Claim C7 (amended): the delete-line command copies the current line to
the register and removes it exactly when the cursor row is strictly before
the last row (the row clamp never fires); whenever the cursor is on the last
row — in particular in a single-line buffer — it is a no-op; in both cases
the buffer never becomes empty. -/
theorem C7_delete_line (m : Model) (line : Str)
    (hy : getLine m.content m.cursorY = some line) :
    (m.cursorY < (m.content.length : Int) - 1 →
       handleNormalMode m (Key.char 'd')
         = some { m with clipboard := line,
                         content := m.content.take m.cursorY.toNat
                                      ++ m.content.drop (m.cursorY.toNat + 1),
                         modified := true })
  ∧ ((m.content.length : Int) - 1 ≤ m.cursorY →
       handleNormalMode m (Key.char 'd') = some m)
  ∧ (∀ m2, handleNormalMode m (Key.char 'd') = some m2 → m2.content ≠ []) := by
  obtain ⟨hy0, hylt, _⟩ := getLine_some hy
  have hdel : m.cursorY < (m.content.length : Int) - 1 →
      handleNormalMode m (Key.char 'd')
        = some { m with clipboard := line,
                        content := m.content.take m.cursorY.toNat
                                     ++ m.content.drop (m.cursorY.toNat + 1),
                        modified := true } := by
    intro hlt
    have hsT : sliceTo m.content m.cursorY = some (m.content.take m.cursorY.toNat) := by
      unfold sliceTo
      rw [if_pos]
      exact ⟨hy0, by omega⟩
    have hsF : sliceFrom m.content (m.cursorY + 1)
        = some (m.content.drop (m.cursorY.toNat + 1)) := by
      unfold sliceFrom
      rw [if_pos]
      · have hto : (m.cursorY + 1).toNat = m.cursorY.toNat + 1 := by omega
        rw [hto]
      · exact ⟨by omega, by omega⟩
    rw [handleNormalMode_d, if_pos hlt, hy, hsT, hsF]
    dsimp only
    have hlen : ¬ (m.cursorY ≥ ((m.content.take m.cursorY.toNat
        ++ m.content.drop (m.cursorY.toNat + 1)).length : Int)) := by
      simp only [List.length_append, List.length_take, List.length_drop]
      omega
    rw [if_neg hlen]
  have hnop : (m.content.length : Int) - 1 ≤ m.cursorY →
      handleNormalMode m (Key.char 'd') = some m := by
    intro hge
    rw [handleNormalMode_d, if_neg (by omega)]
  refine ⟨hdel, hnop, ?_⟩
  intro m2 h
  by_cases hlt : m.cursorY < (m.content.length : Int) - 1
  · rw [hdel hlt] at h
    simp only [Option.some.injEq] at h
    subst h
    simp only []
    have : (m.content.take m.cursorY.toNat ++ m.content.drop (m.cursorY.toNat + 1)).length
        = m.content.length - 1 := by
      simp only [List.length_append, List.length_take, List.length_drop]
      omega
    intro hnil
    rw [hnil] at this
    simp at this
    omega
  · rw [hnop (by omega)] at h
    simp only [Option.some.injEq] at h
    subst h
    intro hnil
    rw [hnil] at hylt
    simp at hylt

/-- Witness for the claim C7 theorem: both the delete case (cursor on row 0
of a two-line buffer) and the no-op case (cursor on the last row). -/
theorem C7_witness :
    handleNormalMode (initialModel [str "a", str "b"]) (Key.char 'd')
      = some { initialModel [str "a", str "b"] with
               clipboard := str "a",
               content := (initialModel [str "a", str "b"]).content.take ((0 : Int)).toNat
                            ++ (initialModel [str "a", str "b"]).content.drop (((0 : Int)).toNat + 1),
               modified := true }
  ∧ handleNormalMode { initialModel [str "a", str "b"] with cursorY := 1 } (Key.char 'd')
      = some { initialModel [str "a", str "b"] with cursorY := 1 } :=
  ⟨(C7_delete_line (initialModel [str "a", str "b"]) (str "a") (by decide)).1 (by decide),
   (C7_delete_line { initialModel [str "a", str "b"] with cursorY := 1 } (str "b")
      (by decide)).2.1 (by decide)⟩

lemma set_self_of_getElem {α : Type} (l : List α) (i : Nat) (a : α)
    (h : l[i]? = some a) : l.set i a = l := by
  induction l generalizing i with
  | nil => simp at h
  | cons b tl ih =>
    cases i with
    | zero =>
      simp only [List.getElem?_cons_zero, Option.some.injEq] at h
      rw [h]
      rfl
    | succ j =>
      simp only [List.getElem?_cons_succ] at h
      simp [ih j h]

lemma getLine_setLine (content : List Str) (y : Int) (line : Str)
    (h0 : 0 ≤ y) (h1 : y.toNat < content.length) :
    getLine (setLine content y line) y = some line := by
  unfold getLine setLine
  rw [if_pos h0]
  simp [List.getElem?_set_self', h1]

/-- Claim C3 (amended): moveCursor (the h/j/k/l, arrow and page keys)
restores the full cursor invariant on every nonempty buffer: afterwards
0 ≤ row < lineCount and 0 ≤ col ≤ len(line[row]).  The invariant does not
survive every operation: g, G and paste skip the column clamp (see the
counterexample). -/
theorem C3_moveCursor_clamps (m : Model) (dx dy : Int) (h : m.content ≠ []) :
    ∃ m2 line, moveCursor m dx dy = some m2
      ∧ getLine m2.content m2.cursorY = some line
      ∧ 0 ≤ m2.cursorY ∧ m2.cursorY < (m2.content.length : Int)
      ∧ 0 ≤ m2.cursorX ∧ m2.cursorX ≤ (line.length : Int) := by
  have hlen : 0 < m.content.length := List.length_pos.mpr h
  set y1 : Int := if m.cursorY + dy < 0 then 0
                  else if m.cursorY + dy ≥ (m.content.length : Int)
                       then (m.content.length : Int) - 1
                       else m.cursorY + dy with hy1
  have hyb : 0 ≤ y1 ∧ y1 < (m.content.length : Int) := by
    rw [hy1]; split_ifs <;> omega
  have hnat : y1.toNat < m.content.length := by omega
  have hg : getLine m.content y1 = some m.content[y1.toNat] := by
    unfold getLine
    rw [if_pos hyb.1]
    exact List.getElem?_eq_getElem hnat
  set line : Str := m.content[y1.toNat] with hline
  set x1 : Int := if m.cursorX + dx < 0 then 0
                  else if m.cursorX + dx > (line.length : Int) then (line.length : Int)
                  else m.cursorX + dx with hx1
  have hmv : moveCursor m dx dy
      = some (adjustOffset { m with cursorX := x1, cursorY := y1 }) := by
    show (match getLine m.content y1 with
          | none => none
          | some line =>
            some (adjustOffset { m with
              cursorX := if m.cursorX + dx < 0 then 0
                         else if m.cursorX + dx > (line.length : Int) then (line.length : Int)
                         else m.cursorX + dx,
              cursorY := y1 })) = _
    rw [hg]
  refine ⟨adjustOffset { m with cursorX := x1, cursorY := y1 }, line, hmv, ?_, ?_, ?_, ?_, ?_⟩
  · simpa using hg
  · simpa using hyb.1
  · simpa using hyb.2
  · simp only [adjustOffset_cursorX]
    show 0 ≤ x1
    rw [hx1]; split_ifs <;> omega
  · simp only [adjustOffset_cursorX]
    show x1 ≤ (line.length : Int)
    rw [hx1]; split_ifs <;> omega

/-- Witness for the claim C3 theorem: a large diagonal move on the buffer
["ab"] lands in bounds. -/
theorem C3_witness :
    ∃ m2 line, moveCursor (initialModel [str "ab"]) 5 7 = some m2
      ∧ getLine m2.content m2.cursorY = some line
      ∧ 0 ≤ m2.cursorY ∧ m2.cursorY < (m2.content.length : Int)
      ∧ 0 ≤ m2.cursorX ∧ m2.cursorX ≤ (line.length : Int) :=
  C3_moveCursor_clamps (initialModel [str "ab"]) 5 7 (by decide)

lemma tabLoop_spec (n : Nat) :
    ∀ (m : Model) (line : Str) (x : Nat), getLine m.content m.cursorY = some line →
      m.cursorX = (x : Int) → x ≤ line.length →
      tabLoop m n = some { m with
        content := setLine m.content m.cursorY
          (line.take x ++ List.replicate n ' ' ++ line.drop x),
        cursorX := ((x + n : Nat) : Int) } := by
  induction n with
  | zero =>
    intro m line x hg hx hxl
    obtain ⟨hy0, hylt, hget⟩ := getLine_some hg
    have hcontent : setLine m.content m.cursorY
        (line.take x ++ List.replicate 0 ' ' ++ line.drop x) = m.content := by
      rw [List.replicate_zero, List.append_nil, List.take_append_drop]
      exact set_self_of_getElem m.content m.cursorY.toNat line hget
    have hxx : ((x + 0 : Nat) : Int) = m.cursorX := by omega
    rw [hcontent, hxx]
    rfl
  | succ k ih =>
    intro m line x hg hx hxl
    obtain ⟨hy0, hylt, hget⟩ := getLine_some hg
    have hsT : sliceTo line m.cursorX = some (line.take x) := by
      unfold sliceTo
      rw [if_pos ⟨by omega, by omega⟩, hx]
      simp
    have hsF : sliceFrom line m.cursorX = some (line.drop x) := by
      unfold sliceFrom
      rw [if_pos ⟨by omega, by omega⟩, hx]
      simp
    have hstep : tabLoop m (k + 1)
        = tabLoop { m with
            content := setLine m.content m.cursorY
              (line.take x ++ ' ' :: line.drop x),
            cursorX := m.cursorX + 1 } k := by
      show (match getLine m.content m.cursorY with
            | none => none
            | some line =>
              match sliceTo line m.cursorX, sliceFrom line m.cursorX with
              | some pre, some suf =>
                tabLoop { m with content := setLine m.content m.cursorY (pre ++ ' ' :: suf),
                                 cursorX := m.cursorX + 1 } k
              | _, _ => none) = _
      rw [hg]
      dsimp only
      rw [hsT, hsF]
    have hg2 : getLine (setLine m.content m.cursorY (line.take x ++ ' ' :: line.drop x))
        m.cursorY = some (line.take x ++ ' ' :: line.drop x) :=
      getLine_setLine m.content m.cursorY (line.take x ++ ' ' :: line.drop x) hy0 hylt
    have hih := ih { m with
        content := setLine m.content m.cursorY (line.take x ++ ' ' :: line.drop x),
        cursorX := m.cursorX + 1 }
      (line.take x ++ ' ' :: line.drop x) (x + 1) hg2
      (by show m.cursorX + 1 = ((x + 1 : Nat) : Int); omega)
      (by
        show x + 1 ≤ (line.take x ++ ' ' :: line.drop x).length
        simp only [List.length_append, List.length_cons, List.length_take, List.length_drop]
        omega)
    rw [hstep, hih]
    have hA : (line.take x).length = x := by
      rw [List.length_take]; omega
    have htake : (line.take x ++ ' ' :: line.drop x).take (x + 1)
        = line.take x ++ [' '] := by
      rw [List.take_append_eq_append_take, List.take_of_length_le (by rw [hA]; omega), hA]
      simp
    have hdrop : (line.take x ++ ' ' :: line.drop x).drop (x + 1) = line.drop x := by
      rw [List.drop_append_eq_append_drop, List.drop_eq_nil_of_le (by rw [hA]; omega), hA]
      simp
    have hnum : x + 1 + k = x + (k + 1) := by omega
    show some { m with
        content := setLine (setLine m.content m.cursorY (line.take x ++ ' ' :: line.drop x))
          m.cursorY ((line.take x ++ ' ' :: line.drop x).take (x + 1)
            ++ List.replicate k ' ' ++ (line.take x ++ ' ' :: line.drop x).drop (x + 1)),
        cursorX := ((x + 1 + k : Nat) : Int) } = _
    rw [htake, hdrop, hnum]
    have hset : setLine (setLine m.content m.cursorY (line.take x ++ ' ' :: line.drop x))
        m.cursorY ((line.take x ++ [' ']) ++ List.replicate k ' ' ++ line.drop x)
        = setLine m.content m.cursorY
          (line.take x ++ List.replicate (k + 1) ' ' ++ line.drop x) := by
      unfold setLine
      rw [List.set_set]
      congr 1
      rw [List.replicate_succ]
      simp [List.append_assoc]
    rw [hset]

/-- Claim C10 (amended): the insert-mode tab key pushes no checkpoint and
does not expand to the next tab-stop boundary: it inserts exactly tabSize
space characters at the cursor and advances the column by tabSize,
independent of the current column. -/
theorem C10_tab_behavior (m : Model) (line : Str)
    (hg : getLine m.content m.cursorY = some line)
    (hx0 : 0 ≤ m.cursorX) (hxl : m.cursorX ≤ (line.length : Int)) (hts : 0 ≤ m.tabSize) :
    handleInsertMode m Key.tab
      = some (adjustOffset { m with
          content := setLine m.content m.cursorY
            (line.take m.cursorX.toNat ++ List.replicate m.tabSize.toNat ' '
               ++ line.drop m.cursorX.toNat),
          cursorX := m.cursorX + m.tabSize,
          modified := true })
  ∧ (∀ m2, handleInsertMode m Key.tab = some m2 →
       m2.undoStack = m.undoStack ∧ m2.redoStack = m.redoStack) := by
  have hx : m.cursorX = ((m.cursorX.toNat : Nat) : Int) := by omega
  have hxl2 : m.cursorX.toNat ≤ line.length := by omega
  have htl := tabLoop_spec m.tabSize.toNat m line m.cursorX.toNat hg hx hxl2
  have hcast : ((m.cursorX.toNat + m.tabSize.toNat : Nat) : Int)
      = m.cursorX + m.tabSize := by omega
  have h1 : handleInsertMode m Key.tab
      = some (adjustOffset { m with
          content := setLine m.content m.cursorY
            (line.take m.cursorX.toNat ++ List.replicate m.tabSize.toNat ' '
               ++ line.drop m.cursorX.toNat),
          cursorX := m.cursorX + m.tabSize,
          modified := true }) := by
    rw [handleInsertMode_eq, insertModeCore_tab, htl]
    dsimp only
    rw [hcast]
  refine ⟨h1, ?_⟩
  intro m2 h
  rw [h1] at h
  simp only [Option.some.injEq] at h
  subst h
  simp


/-- Witness for the claim C10 theorem: tab at column 1 of line "ab" with
tab size 4. -/
theorem C10_witness :
    handleInsertMode c10m Key.tab
      = some (adjustOffset { c10m with
          content := setLine c10m.content c10m.cursorY
            ((str "ab").take c10m.cursorX.toNat ++ List.replicate c10m.tabSize.toNat ' '
               ++ (str "ab").drop c10m.cursorX.toNat),
          cursorX := c10m.cursorX + c10m.tabSize,
          modified := true }) :=
  (C10_tab_behavior c10m (str "ab") (by decide) (by decide) (by decide) (by decide)).1

lemma replaceLines_cons (line : Str) (rest : List Str) (term repl : Str) :
    replaceLines (line :: rest) term repl
      = (if goReplaceAll line term repl ≠ line
         then (goReplaceAll line term repl :: (replaceLines rest term repl).1,
               goCount line term + (replaceLines rest term repl).2.1, true)
         else (line :: (replaceLines rest term repl).1,
               (replaceLines rest term repl).2.1,
               (replaceLines rest term repl).2.2)) := rfl

lemma flatMap_cons_length (line repl : Str) :
    (line.flatMap (fun ch => ch :: repl)).length = line.length * (repl.length + 1) := by
  induction line with
  | nil => simp
  | cons a tl ih =>
    simp only [List.flatMap_cons, List.length_append, List.length_cons, ih]
    ring

lemma replaceLines_empty_term (repl : Str) (hr : repl ≠ []) :
    ∀ lines : List Str,
      (replaceLines lines [] repl).1
        = lines.map (fun line => repl ++ line.flatMap (fun ch => ch :: repl))
      ∧ (replaceLines lines [] repl).2.1
        = (lines.map (fun line => line.length + 1)).sum := by
  intro lines
  induction lines with
  | nil => exact ⟨rfl, rfl⟩
  | cons line rest ih =>
    rw [replaceLines_cons]
    have hnew : goReplaceAll line [] repl
        = repl ++ line.flatMap (fun ch => ch :: repl) := rfl
    have hrl : 1 ≤ repl.length := by
      cases repl with
      | nil => exact absurd rfl hr
      | cons a tl => simp
    have hne : goReplaceAll line [] repl ≠ line := by
      intro he
      have hl := congrArg List.length he
      rw [hnew] at hl
      simp only [List.length_append, flatMap_cons_length] at hl
      have h2 : line.length ≤ line.length * (repl.length + 1) := by nlinarith
      omega
    rw [if_pos hne]
    refine ⟨?_, ?_⟩
    · dsimp only
      rw [ih.1, hnew]
      simp
    · dsimp only
      rw [ih.2]
      simp [goCount]

/-- Claim C8 (amended): with an empty search term, search highlighting
returns the text unchanged, for every text; but replaceAll with an empty
term is not a no-op: per Go ReplaceAll semantics on an empty pattern it
inserts the replacement at the start of each line and after every character,
and reports a count of len(line)+1 per line, not 0. -/
theorem C8_empty_term :
    (∀ text : Str, highlightSearch text [] = text)
  ∧ (∀ m : Model, m.searchTerm = [] → m.replaceTerm ≠ [] →
       (replaceAll m).content
         = m.content.map (fun line => m.replaceTerm ++ line.flatMap (fun ch => ch :: m.replaceTerm))
       ∧ (replaceAll m).statusMsg
         = str "Replaced "
             ++ (toString ((m.content.map (fun line => line.length + 1)).sum)).toList
             ++ str " occurrences") := by
  constructor
  · intro text
    unfold highlightSearch
    rw [if_pos rfl]
  · intro m hterm hrepl
    have h := replaceLines_empty_term m.replaceTerm hrepl m.content
    constructor
    · show (replaceLines m.content m.searchTerm m.replaceTerm).1 = _
      rw [hterm]
      exact h.1
    · show str "Replaced "
          ++ (toString (replaceLines m.content m.searchTerm m.replaceTerm).2.1).toList
          ++ str " occurrences" = _
      rw [hterm, h.2]


/-- Witness for the claim C8 theorem on buffer ["ab"] with replacement "x". -/
theorem C8_witness :
    (replaceAll c8wm).content
      = c8wm.content.map (fun line => c8wm.replaceTerm ++ line.flatMap (fun ch => ch :: c8wm.replaceTerm))
    ∧ (replaceAll c8wm).statusMsg
      = str "Replaced "
          ++ (toString ((c8wm.content.map (fun line => line.length + 1)).sum)).toList
          ++ str " occurrences" :=
  C8_empty_term.2 c8wm (by decide) (by decide)

lemma goIndex_single_none (s : Str) (c : Char) :
    goIndex s [c] = none ↔ c ∉ s := by
  induction s with
  | nil =>
    unfold goIndex
    simp [List.isPrefixOf]
  | cons a tl ih =>
    unfold goIndex
    by_cases hac : c = a
    · subst hac
      simp [List.isPrefixOf]
    · simp [List.isPrefixOf, hac, ih]

lemma goReplaceAux_single_not_mem (c : Char) (repl : Str) (hc : c ∉ repl) :
    ∀ (fuel : Nat) (s : Str), s.length ≤ fuel → c ∉ goReplaceAux [c] repl fuel s := by
  intro fuel
  induction fuel with
  | zero =>
    intro s hs
    have hnil : s = [] := List.eq_nil_of_length_eq_zero (by omega)
    subst hnil
    simp [goReplaceAux]
  | succ f ih =>
    intro s hs
    cases s with
    | nil => simp [goReplaceAux]
    | cons a tl =>
      unfold goReplaceAux
      by_cases hac : c = a
      · subst hac
        rw [if_pos (by simp [List.isPrefixOf])]
        simp only [List.length_cons, List.length_nil, List.drop_succ_cons, List.drop_zero]
        intro hmem
        rcases List.mem_append.mp hmem with h1 | h2
        · exact hc h1
        · exact ih tl (by simpa using hs) h2
      · rw [if_neg (by simp [List.isPrefixOf, hac])]
        intro hmem
        rcases List.mem_cons.mp hmem with h1 | h2
        · exact hac h1
        · exact ih tl (by simpa using hs) h2

lemma goReplaceAux_single_id (c : Char) (repl : Str) :
    ∀ (fuel : Nat) (s : Str), c ∉ s → goReplaceAux [c] repl fuel s = s := by
  intro fuel
  induction fuel with
  | zero =>
    intro s _
    cases s <;> rfl
  | succ f ih =>
    intro s hs
    cases s with
    | nil => rfl
    | cons a tl =>
      have hac : ¬ (c = a) := fun he => hs (he ▸ List.mem_cons_self a tl)
      have htl : c ∉ tl := fun hm => hs (List.mem_cons_of_mem a hm)
      unfold goReplaceAux
      rw [if_neg (by simp [List.isPrefixOf, hac])]
      rw [ih tl htl]

lemma goCountAux_single_zero (c : Char) :
    ∀ (fuel : Nat) (s : Str), c ∉ s → goCountAux [c] fuel s = 0 := by
  intro fuel
  induction fuel with
  | zero =>
    intro s _
    cases s <;> rfl
  | succ f ih =>
    intro s hs
    cases s with
    | nil => rfl
    | cons a tl =>
      have hac : ¬ (c = a) := fun he => hs (he ▸ List.mem_cons_self a tl)
      have htl : c ∉ tl := fun hm => hs (List.mem_cons_of_mem a hm)
      unfold goCountAux
      rw [if_neg (by simp [List.isPrefixOf, hac])]
      exact ih tl htl

lemma goReplaceAll_single_id (c : Char) (repl : Str) (line : Str) (h : c ∉ line) :
    goReplaceAll line [c] repl = line := by
  unfold goReplaceAll goReplace
  rw [if_neg (by simp)]
  exact goReplaceAux_single_id c repl line.length line h

lemma replaceLines_single_no_c (c : Char) (repl : Str) (hc : c ∉ repl) :
    ∀ lines : List Str, ∀ l ∈ (replaceLines lines [c] repl).1, c ∉ l := by
  intro lines
  induction lines with
  | nil => simp [replaceLines]
  | cons line rest ih =>
    rw [replaceLines_cons]
    by_cases hne : goReplaceAll line [c] repl ≠ line
    · rw [if_pos hne]
      intro l hl
      rcases List.mem_cons.mp hl with rfl | hl2
      · show c ∉ goReplaceAll line [c] repl
        unfold goReplaceAll goReplace
        rw [if_neg (by simp)]
        exact goReplaceAux_single_not_mem c repl hc line.length line le_rfl
      · exact ih l hl2
    · rw [if_neg hne]
      push_neg at hne
      intro l hl
      rcases List.mem_cons.mp hl with rfl | hl2
      · intro hcl
        have hnm := goReplaceAux_single_not_mem c repl hc l.length l le_rfl
        have heq2 : goReplaceAux [c] repl l.length l = goReplaceAll l [c] repl := by
          unfold goReplaceAll goReplace
          rw [if_neg (by simp)]
        rw [heq2, hne] at hnm
        exact hnm hcl
      · exact ih l hl2

lemma replaceLines_no_occurrence (c : Char) (repl : Str) :
    ∀ lines : List Str, (∀ l ∈ lines, c ∉ l) →
      replaceLines lines [c] repl = (lines, 0, false) := by
  intro lines
  induction lines with
  | nil => intro _; rfl
  | cons line rest ih =>
    intro hall
    rw [replaceLines_cons]
    have hid : goReplaceAll line [c] repl = line :=
      goReplaceAll_single_id c repl line (hall line (by simp))
    rw [if_neg (by simp [hid])]
    rw [ih (fun l hl => hall l (by simp [hl]))]

/-- Claim C9 (amended): the idempotence law is restricted to
single-character search terms: for every state whose search term is one
character not contained in the replacement, applying replaceAll twice yields
the same buffer as applying it once, and the second pass reports a count of
0.  (For longer terms a replacement can create a fresh occurrence across a
boundary; see the counterexample.) -/
theorem C9_replaceAll_single_char (m : Model) (c : Char)
    (hterm : m.searchTerm = [c]) (hc : goContains m.replaceTerm [c] = false) :
    (replaceAll (replaceAll m)).content = (replaceAll m).content
  ∧ (replaceAll (replaceAll m)).statusMsg = str "Replaced 0 occurrences" := by
  have hcm : c ∉ m.replaceTerm := by
    rw [← goIndex_single_none]
    unfold goContains at hc
    cases hidx : goIndex m.replaceTerm [c] with
    | none => rfl
    | some v => rw [hidx] at hc; simp at hc
  have hfirst : ∀ l ∈ (replaceAll m).content, c ∉ l := by
    show ∀ l ∈ (replaceLines m.content m.searchTerm m.replaceTerm).1, c ∉ l
    rw [hterm]
    exact replaceLines_single_no_c c m.replaceTerm hcm m.content
  have hst : (replaceAll m).searchTerm = [c] := by rw [← hterm]; rfl
  have hrt : (replaceAll m).replaceTerm = m.replaceTerm := rfl
  have h2 : replaceLines (replaceAll m).content (replaceAll m).searchTerm
      (replaceAll m).replaceTerm = ((replaceAll m).content, 0, false) := by
    rw [hst, hrt]
    exact replaceLines_no_occurrence c m.replaceTerm (replaceAll m).content hfirst
  constructor
  · show (replaceLines (replaceAll m).content (replaceAll m).searchTerm
        (replaceAll m).replaceTerm).1 = _
    rw [h2]
  · show str "Replaced "
        ++ (toString (replaceLines (replaceAll m).content (replaceAll m).searchTerm
              (replaceAll m).replaceTerm).2.1).toList
        ++ str " occurrences" = _
    rw [h2]
    have h3 : (((replaceAll m).content, (0 : Nat), false).2.1) = 0 := rfl
    rw [h3]
    decide


/-- Witness for the claim C9 theorem: term "a", replacement "xy",
buffer ["abcab"]. -/
theorem C9_witness :
    (replaceAll (replaceAll c9wm)).content = (replaceAll c9wm).content
  ∧ (replaceAll (replaceAll c9wm)).statusMsg = str "Replaced 0 occurrences" :=
  C9_replaceAll_single_char c9wm 'a' (by decide) (by decide)

/-- Claim C5: findNext scans linearly from (row, col+1), resetting the start
column to 0 on later rows, landing on the first match, with no wraparound:
on buffer ["hello world", "world peace"] with term "world", successive calls
from (0,0) land at (0,6), then (1,0), then report "Pattern not found". -/
theorem C5_findNext_scenario :
    (findNext m5c).map (fun m => (m.cursorY, m.cursorX)) = some (0, 6)
  ∧ ((findNext m5c).bind findNext).map (fun m => (m.cursorY, m.cursorX)) = some (1, 0)
  ∧ (((findNext m5c).bind findNext).bind findNext).map
      (fun m => (m.cursorY, m.cursorX, m.statusMsg)) =
      some (1, 0, str "Pattern not found: world") := by
  refine ⟨by decide, by decide, by decide⟩


/-- Claim C6 (code bug): from the initial empty buffer, typing "ab", setting
the search term to "a", pressing the end-of-line command (cursor column = line
length 2) and then repeat-search reaches the slice `content[0][3:]` whose low
bound 3 exceeds the line length 2: the Go code panics (modelled as `none`)
instead of completing with a match or a not-found status. -/
theorem C6_findNext_panics :
    (run (initialModel [[]]) c6keys).map
      (fun m => (m.cursorY, m.cursorX, m.content, m.searchTerm)) =
      some (0, 2, [str "ab"], str "a")
  ∧ run (initialModel [[]]) (c6keys ++ [Key.char 'n']) = none := by
  refine ⟨by decide, by decide⟩

/-- Claim C1 counterexample: the delete-character edit (normal-mode x) pushes
no checkpoint, so undo immediately after it does not restore the pre-edit
buffer: after typing "a", pressing x (buffer goes from ["a"] to [""]) and then
undo, the buffer is [""] and not the pre-edit ["a"]. -/
theorem C1_counterexample :
    (run (initialModel [[]]) [Key.char 'i', Key.char 'a', Key.esc]).map
      (fun m => m.content) = some [str "a"]
  ∧ (run (initialModel [[]])
      [Key.char 'i', Key.char 'a', Key.esc, Key.char 'x', Key.char 'u']).map
      (fun m => m.content) = some [[]]
  ∧ ([[]] : List Str) ≠ [str "a"] := by
  refine ⟨by decide, by decide, by decide⟩

/-- Claim C2 counterexample: the insert-mode tab key is a discrete edit action
but pushes no checkpoint: from the initial empty buffer, entering insert mode
and pressing tab leaves the undo stack empty (length 0, not 1). -/
theorem C2_counterexample :
    (run (initialModel [[]]) [Key.char 'i', Key.tab]).map
      (fun m => (m.undoStack.length, m.content, m.cursorX)) =
      some (0, [str "    "], 4)
  ∧ (0 : Nat) ≠ 1 := by
  refine ⟨by decide, by decide⟩


/-- Claim C3 counterexample: the jump-to-top command g sets the row to 0
without re-clamping the column: from the reachable state with buffer
["a", "wxyz"] and cursor at (1,4), pressing g leaves the cursor at (0,4)
while line 0 has length 1, violating col ≤ len(line[row]). -/
theorem C3_counterexample :
    (run (initialModel [[]]) c3keys).map
      (fun m => (m.cursorY, m.cursorX, (getLine m.content m.cursorY).map List.length)) =
      some (0, 4, some 1)
  ∧ ¬ ((4 : Int) ≤ (1 : Int)) := by
  refine ⟨by decide, by decide⟩


/-- Claim C4 counterexample: an edit that pushes no checkpoint (tab) does not
clear the redo stack: after insert "a"; undo; tab, the redo stack still holds
one entry, and redo then reports "Redo performed" and changes the buffer
(to ["a"]) instead of reporting "nothing to redo" and changing no state. -/
theorem C4_counterexample :
    (run (initialModel [[]]) c4keys.dropLast).map
      (fun m => (m.content, m.redoStack.length)) = some ([str "    "], 1)
  ∧ (run (initialModel [[]]) c4keys).map
      (fun m => (m.content, m.statusMsg)) =
      some ([str "a"], str "Redo performed")
  ∧ str "Redo performed" ≠ str "Nothing to redo" := by
  refine ⟨by decide, by decide, by decide⟩


/-- Claim C7 counterexample: with the two-line buffer ["a", "b"] and the
cursor on the last line (row 1), the delete-line command is a no-op even
though the buffer has more than one line: the content stays ["a", "b"]
instead of becoming ["a"]. -/
theorem C7_counterexample :
    (run (initialModel [[]]) c7keys.dropLast).map
      (fun m => (m.content.length, m.cursorY)) = some (2, 1)
  ∧ (run (initialModel [[]]) c7keys).map
      (fun m => (m.content, m.cursorY)) = some ([str "a", str "b"], 1)
  ∧ ([str "a", str "b"] : List Str) ≠ [str "a"] := by
  refine ⟨by decide, by decide, by decide⟩

/-- Claim C8 counterexample: replaceAll with an empty search term is not a
no-op: on buffer ["ab"] with replacement "x" it produces ["xaxbx"] and reports
a count of 3, not 0. -/
theorem C8_counterexample :
    (replaceAll { initialModel [str "ab"] with searchTerm := [], replaceTerm := str "x" }).content
      = [str "xaxbx"]
  ∧ (replaceAll { initialModel [str "ab"] with searchTerm := [], replaceTerm := str "x" }).statusMsg
      = str "Replaced 3 occurrences"
  ∧ [str "xaxbx"] ≠ [str "ab"] := by
  refine ⟨by decide, by decide, by decide⟩


/-- Claim C9 counterexample: "a" does not contain the search term "ab", yet
replaceAll is not idempotent on buffer ["abb"]: the first pass gives ["ab"]
(the replacement creates a fresh occurrence at the boundary), and the second
pass gives ["a"] with a reported count of 1, not 0. -/
theorem C9_counterexample :
    goContains (str "a") (str "ab") = false
  ∧ (replaceAll m9c).content = [str "ab"]
  ∧ (replaceAll (replaceAll m9c)).content = [str "a"]
  ∧ (replaceAll (replaceAll m9c)).statusMsg = str "Replaced 1 occurrences"
  ∧ [str "a"] ≠ [str "ab"] := by
  refine ⟨by decide, by decide, by decide, by decide, by decide⟩


/-- Claim C10 counterexample: with tab size 4 and the cursor at column 1 of
line "ab", the insert-mode tab key inserts four spaces unconditionally and
pushes no checkpoint: the cursor lands at column 5, not at the next tab-stop
boundary 4, and the undo stack still has the 2 entries from typing "ab",
not 3. -/
theorem C10_counterexample :
    (run (initialModel [[]]) c10keys).map
      (fun m => (m.cursorX, m.undoStack.length, m.content)) =
      some (5, 2, [str "a    b"])
  ∧ ((5 : Int) ≠ 4 ∧ (2 : Nat) ≠ 3) := by
  refine ⟨by decide, by decide⟩

end GoEd
